import Mathlib

/-!
Verification of the seat hold/reservation engine of CinemaWeb (app/db.py).

The embedding models the migrated modern schema produced by `create_schema` /
`_migrate_legacy_show_tables`:
  * table `seat_holds(token, movie_id, fecha, hora, sala, seat, expires_at)`
    with the unique index `ux_seat_holds_show_seat` on
    (movie_id, fecha, hora, sala, seat);
  * table `seat_reservas(usuario_email, trx_id, movie_id, fecha, hora, sala,
    seat, reserved_at)` with the unique index `ux_seat_reservas_show_seat` on
    (movie_id, fecha, hora, sala, seat).
Tables are lists of rows in rowid (insertion) order; SELECTs without ORDER BY
are modelled as returning rows in that order.  A Python `with conn:` block is
modelled by the `apply*` wrappers: on an exception the transaction rolls back,
so the resulting state is the input state.
-/

namespace CinemaWeb

/-- Composite show identity (movie_id, fecha, hora, sala), the key used by all
seat operations in app/db.py. -/
structure ShowKey where
  movie_id : String
  fecha : String
  hora : String
  sala : String
deriving DecidableEq, Repr

/-- One row of `seat_holds` (modern schema). -/
structure Hold where
  token : String
  show_key : ShowKey
  seat : String
  expires_at : Int
deriving DecidableEq, Repr

/-- One row of `seat_reservas` (modern schema). -/
structure Reserva where
  usuario_email : Option String
  trx_id : Option Int
  show_key : ShowKey
  seat : String
  reserved_at : Int
deriving DecidableEq, Repr

/-- The persistent seat ledger: the two tables owned by app/db.py. -/
structure Ledger where
  holds : List Hold
  reservas : List Reserva
deriving DecidableEq, Repr

/-- Fresh database (after `create_schema` on an empty file). -/
def Ledger.empty : Ledger := ⟨[], []⟩

/-- The (show, seat) key of a hold row, the key of `ux_seat_holds_show_seat`. -/
def Hold.key (h : Hold) : ShowKey × String := (h.show_key, h.seat)

/-- The (show, seat) key of a reservation row, key of
`ux_seat_reservas_show_seat`. -/
def Reserva.key (r : Reserva) : ShowKey × String := (r.show_key, r.seat)

/-- Characters removed by Python's `str.strip()` (ASCII whitespace). -/
def pySpace (c : Char) : Bool :=
  c == ' ' || c == '\t' || c == '\n' || c == '\r' || c == Char.ofNat 11 || c == Char.ofNat 12

/-- Python `s.strip()`: drop leading and trailing whitespace. -/
def pyStrip (s : String) : String :=
  ⟨((s.data.dropWhile pySpace).reverse.dropWhile pySpace).reverse⟩

/-- Python `s.upper()` on the seat-code alphabet (ASCII). -/
def pyUpper (s : String) : String :=
  ⟨s.data.map Char.toUpper⟩

/-- `[s.strip().upper() for s in seats if s and str(s).strip()]`
(hold_seats, app/db.py line 592). -/
def cleanSeats (seats : List String) : List String :=
  seats.filterMap fun s =>
    if s ≠ "" ∧ pyStrip s ≠ "" then some (pyUpper (pyStrip s)) else none

/-- Row predicate for `WHERE token=? AND movie_id=? AND fecha=? AND hora=? AND sala=?`. -/
def holdOwnedBy (tk : String) (sk : ShowKey) (h : Hold) : Bool :=
  decide (h.token = tk ∧ h.show_key = sk)

/-- Row predicate for the hold unique index: an existing row on (show, seat). -/
def holdRowOn (sk : ShowKey) (s : String) (h : Hold) : Bool :=
  decide (h.show_key = sk ∧ h.seat = s)

/-- Row predicate for the reservation unique index on (show, seat). -/
def reservaOn (sk : ShowKey) (s : String) (r : Reserva) : Bool :=
  decide (r.show_key = sk ∧ r.seat = s)

/-- `purge_expired_holds` (app/db.py lines 514–520):
`DELETE FROM seat_holds WHERE expires_at < now`, returning the rowcount. -/
def purge_expired_holds (now : Int) (σ : Ledger) : Nat × Ledger :=
  ((σ.holds.filter fun h => decide (h.expires_at < now)).length,
   ⟨σ.holds.filter fun h => !decide (h.expires_at < now), σ.reservas⟩)

/-- `get_occupied_seats` (app/db.py lines 523–575): reservation seats of the
show, union the holds with `expires_at >= now`, excluding holds of
`exclude_token` only when that argument is truthy (non-None and non-empty). -/
def get_occupied_seats (sk : ShowKey) (exclude_token : Option String) (now : Int)
    (σ : Ledger) : Finset String :=
  let taken := ((σ.reservas.filter fun r => decide (r.show_key = sk)).map Reserva.seat).toFinset
  let held : List Hold :=
    match exclude_token with
    | some t =>
      if t ≠ "" then
        σ.holds.filter fun (h : Hold) => decide (h.show_key = sk ∧ now ≤ h.expires_at ∧ h.token ≠ t)
      else
        σ.holds.filter fun (h : Hold) => decide (h.show_key = sk ∧ now ≤ h.expires_at)
    | none => σ.holds.filter fun (h : Hold) => decide (h.show_key = sk ∧ now ≤ h.expires_at)
  taken ∪ (held.map Hold.seat).toFinset

/-- Errors raised by `hold_seats` (both are `ValueError` in the source). -/
inductive HoldError where
  /-- "Asientos ya reservados: …" — pre-check against `seat_reservas`. -/
  | reservedConflict : List String → HoldError
  /-- "Asiento ocupado: s" — `sqlite3.IntegrityError` on the hold insert. -/
  | seatTaken : String → HoldError
deriving DecidableEq, Repr

/-- The insert loop of `hold_seats` (app/db.py lines 635–660): insert one row
per seat; a row already present on (show, seat) — the unique index
`ux_seat_holds_show_seat` — raises `IntegrityError` for that seat. -/
def insertHolds (tk : String) (sk : ShowKey) (exp : Int) :
    List Hold → List String → Except String (List Hold)
  | acc, [] => .ok acc
  | acc, s :: rest =>
    if acc.any (holdRowOn sk s) then .error s
    else insertHolds tk sk exp (acc ++ [⟨tk, sk, s, exp⟩]) rest

/-- `hold_seats` (app/db.py lines 578–660), one transaction:
clean the input, delete the token's prior rows for the show, return if the
cleaned list is empty, check collisions against `seat_reservas`, then insert
row by row (the unique index may abort the loop). -/
def hold_seats (tk : String) (sk : ShowKey) (seats : List String) (ttl_sec : Int)
    (now : Int) (σ : Ledger) : Except HoldError Ledger :=
  let clean := cleanSeats seats
  let exp := now + ttl_sec
  let holds1 := σ.holds.filter fun h => !holdOwnedBy tk sk h
  if clean = [] then .ok ⟨holds1, σ.reservas⟩
  else
    let conflicted :=
      (σ.reservas.filter fun r => decide (r.show_key = sk ∧ r.seat ∈ clean)).map Reserva.seat
    if conflicted ≠ [] then .error (.reservedConflict conflicted)
    else
      match insertHolds tk sk exp holds1 clean with
      | .error s => .error (.seatTaken s)
      | .ok holds2 => .ok ⟨holds2, σ.reservas⟩

/-- `hold_seats` as seen from outside its `with conn:` block: an exception
rolls the transaction back, leaving the ledger unchanged. -/
def applyHold (tk : String) (sk : ShowKey) (seats : List String) (ttl_sec : Int)
    (now : Int) (σ : Ledger) : Option HoldError × Ledger :=
  match hold_seats tk sk seats ttl_sec now σ with
  | .ok σ' => (none, σ')
  | .error e => (some e, σ)

/-- `release_hold` (app/db.py lines 663–683). -/
def release_hold (tk : String) (sk : ShowKey) (σ : Ledger) : Nat × Ledger :=
  ((σ.holds.filter (holdOwnedBy tk sk)).length,
   ⟨σ.holds.filter fun h => !holdOwnedBy tk sk h, σ.reservas⟩)

/-- Error raised by `confirm_seats` ("Asiento ya reservado: s", a `ValueError`
wrapping the `IntegrityError` of `ux_seat_reservas_show_seat`). -/
inductive ConfirmError where
  | alreadyReserved : String → ConfirmError
deriving DecidableEq, Repr

/-- Row predicate for the live-hold read of `confirm_seats`:
`token=? AND show AND expires_at >= now`. -/
def liveHoldOf (tk : String) (sk : ShowKey) (now : Int) (h : Hold) : Bool :=
  decide (h.token = tk ∧ h.show_key = sk ∧ now ≤ h.expires_at)

/-- The seats the token currently holds (non-expired) for the show, in row
order — step 1 of `confirm_seats`. -/
def heldSeats (tk : String) (sk : ShowKey) (now : Int) (σ : Ledger) : List String :=
  (σ.holds.filter (liveHoldOf tk sk now)).map Hold.seat

/-- The reservation-insert loop of `confirm_seats` (step 2): one row per held
seat; an existing row on (show, seat) raises `IntegrityError` for that seat. -/
def insertReservas (owner : Option String) (trx : Option Int) (sk : ShowKey) (now : Int) :
    List Reserva → List String → Except String (List Reserva)
  | acc, [] => .ok acc
  | acc, s :: rest =>
    if acc.any (reservaOn sk s) then .error s
    else insertReservas owner trx sk now (acc ++ [⟨owner, trx, sk, s, now⟩]) rest

/-- `confirm_seats` (app/db.py lines 686–762), one transaction: read the
token's live holds (empty ⇒ return []), insert one reservation per held seat,
delete the token's hold rows for the show, return the held seats. -/
def confirm_seats (tk : String) (sk : ShowKey) (owner : Option String) (trx : Option Int)
    (now : Int) (σ : Ledger) : Except ConfirmError (List String × Ledger) :=
  let seats := heldSeats tk sk now σ
  if seats = [] then .ok ([], σ)
  else
    match insertReservas owner trx sk now σ.reservas seats with
    | .error s => .error (.alreadyReserved s)
    | .ok rs2 => .ok (seats, ⟨σ.holds.filter fun h => !holdOwnedBy tk sk h, rs2⟩)

/-- `confirm_seats` seen from outside its transaction: an exception rolls
back, leaving the ledger unchanged and confirming nothing. -/
def applyConfirm (tk : String) (sk : ShowKey) (owner : Option String) (trx : Option Int)
    (now : Int) (σ : Ledger) : Option ConfirmError × List String × Ledger :=
  match confirm_seats tk sk owner trx now σ with
  | .ok (l, σ') => (none, l, σ')
  | .error e => (some e, [], σ)

/-- The seat has a hold row that is not expired when observed at time `t`. -/
def HeldAt (σ : Ledger) (sk : ShowKey) (s : String) (t : Int) : Prop :=
  ∃ h ∈ σ.holds, h.show_key = sk ∧ h.seat = s ∧ t ≤ h.expires_at

/-- The seat has a reservation row. -/
def ReservedAt (σ : Ledger) (sk : ShowKey) (s : String) : Prop :=
  ∃ r ∈ σ.reservas, r.show_key = sk ∧ r.seat = s

/-- The seat is neither held (at `t`) nor reserved. -/
def FreeAt (σ : Ledger) (sk : ShowKey) (s : String) (t : Int) : Prop :=
  ¬ HeldAt σ sk s t ∧ ¬ ReservedAt σ sk s

/-- Hold rows have pairwise distinct (show, seat) keys — the invariant
enforced by `ux_seat_holds_show_seat`. -/
def holdsKeyNodup (σ : Ledger) : Prop := (σ.holds.map Hold.key).Nodup

/-- Reservation rows have pairwise distinct (show, seat) keys — the invariant
enforced by `ux_seat_reservas_show_seat`. -/
def reservasKeyNodup (σ : Ledger) : Prop := (σ.reservas.map Reserva.key).Nodup

/-- No (show, seat) pair carries both a hold row and a reservation row. -/
def noHoldOnReserved (σ : Ledger) : Prop :=
  ∀ h ∈ σ.holds, ∀ r ∈ σ.reservas, Hold.key h ≠ Reserva.key r

/-- The ledger invariant maintained by the four core operations. -/
def LedgerInv (σ : Ledger) : Prop :=
  holdsKeyNodup σ ∧ reservasKeyNodup σ ∧ noHoldOnReserved σ

instance (σ : Ledger) (sk : ShowKey) (s : String) (t : Int) : Decidable (HeldAt σ sk s t) := by
  unfold HeldAt
  infer_instance

instance (σ : Ledger) (sk : ShowKey) (s : String) : Decidable (ReservedAt σ sk s) := by
  unfold ReservedAt
  infer_instance

instance (σ : Ledger) : Decidable (holdsKeyNodup σ) := by
  unfold holdsKeyNodup
  infer_instance

/-- One core operation, with arbitrary arguments and call time. -/
inductive StepR : Ledger → Ledger → Prop where
  | hold (tk : String) (sk : ShowKey) (seats : List String) (ttl now : Int) (σ : Ledger) :
      StepR σ (applyHold tk sk seats ttl now σ).2
  | release (tk : String) (sk : ShowKey) (σ : Ledger) :
      StepR σ (release_hold tk sk σ).2
  | confirm (tk : String) (sk : ShowKey) (owner : Option String) (trx : Option Int)
      (now : Int) (σ : Ledger) :
      StepR σ (applyConfirm tk sk owner trx now σ).2.2
  | purge (now : Int) (σ : Ledger) :
      StepR σ (purge_expired_holds now σ).2

/-- States reachable from the empty ledger by core operations. -/
inductive Reachable : Ledger → Prop where
  | init : Reachable Ledger.empty
  | step {σ σ' : Ledger} : Reachable σ → StepR σ σ' → Reachable σ'

/-! ### Basic lemmas about the row predicates -/

lemma holdRowOn_iff {sk : ShowKey} {s : String} {h : Hold} :
    holdRowOn sk s h = true ↔ h.show_key = sk ∧ h.seat = s := by
  simp [holdRowOn]

lemma holdOwnedBy_iff {tk : String} {sk : ShowKey} {h : Hold} :
    holdOwnedBy tk sk h = true ↔ h.token = tk ∧ h.show_key = sk := by
  simp [holdOwnedBy]

lemma reservaOn_iff {sk : ShowKey} {s : String} {r : Reserva} :
    reservaOn sk s r = true ↔ r.show_key = sk ∧ r.seat = s := by
  simp [reservaOn]

lemma any_holdRowOn_iff {sk : ShowKey} {s : String} {l : List Hold} :
    l.any (holdRowOn sk s) = true ↔ ∃ h ∈ l, h.show_key = sk ∧ h.seat = s := by
  simp [List.any_eq_true, holdRowOn]

lemma any_reservaOn_iff {sk : ShowKey} {s : String} {l : List Reserva} :
    l.any (reservaOn sk s) = true ↔ ∃ r ∈ l, r.show_key = sk ∧ r.seat = s := by
  simp [List.any_eq_true, reservaOn]

lemma find?_agree {α : Type} {p q : α → Bool} :
    ∀ {l : List α}, (∀ a ∈ l, p a = q a) → l.find? p = l.find? q := by
  intro l
  induction l with
  | nil => intro _; rfl
  | cons a t ih =>
    intro h
    have ha := h a (List.mem_cons_self a t)
    simp only [List.find?]
    rw [ha]
    cases q a
    · exact ih fun x hx => h x (List.mem_cons_of_mem _ hx)
    · rfl

/-! ### Lemmas about the hold insert loop -/

lemma insertHolds_ok_append (tk : String) (sk : ShowKey) (exp : Int) :
    ∀ (l : List String) (acc acc' : List Hold),
      insertHolds tk sk exp acc l = .ok acc' →
      acc' = acc ++ l.map (fun s => Hold.mk tk sk s exp) := by
  intro l
  induction l with
  | nil =>
    intro acc acc' h
    simp only [insertHolds] at h
    cases h
    simp
  | cons s rest ih =>
    intro acc acc' h
    simp only [insertHolds] at h
    split at h
    · exact absurd h (by simp)
    · have h2 := ih _ _ h
      simp [h2]

lemma insertHolds_ok_nodup (tk : String) (sk : ShowKey) (exp : Int) :
    ∀ (l : List String) (acc acc' : List Hold),
      insertHolds tk sk exp acc l = .ok acc' →
      (acc.map Hold.key).Nodup → (acc'.map Hold.key).Nodup := by
  intro l
  induction l with
  | nil =>
    intro acc acc' h hn
    simp only [insertHolds] at h
    cases h; exact hn
  | cons s rest ih =>
    intro acc acc' h hn
    simp only [insertHolds] at h
    split at h
    · exact absurd h (by simp)
    · rename_i hguard
      refine ih _ _ h ?_
      have hnot : (sk, s) ∉ acc.map Hold.key := by
        intro hmem
        rcases List.mem_map.mp hmem with ⟨h0, h0mem, h0key⟩
        have : acc.any (holdRowOn sk s) = true := by
          refine List.any_eq_true.mpr ⟨h0, h0mem, ?_⟩
          refine holdRowOn_iff.mpr ?_
          have h1 : h0.show_key = sk := congrArg Prod.fst h0key
          have h2 : h0.seat = s := congrArg Prod.snd h0key
          exact ⟨h1, h2⟩
        simp [this] at hguard
      simp only [List.map_append, List.map_cons, List.map_nil]
      refine List.nodup_append.mpr ⟨hn, List.nodup_singleton _, ?_⟩
      intro a ha hb
      simp only [List.mem_singleton] at hb
      subst hb
      exact hnot ha

lemma insertHolds_error_of_mem (tk : String) (sk : ShowKey) (exp : Int) :
    ∀ (l : List String) (acc : List Hold),
      (∃ s ∈ l, acc.any (holdRowOn sk s) = true) →
      ∃ s' ∈ l, insertHolds tk sk exp acc l = .error s' := by
  intro l
  induction l with
  | nil => intro acc h; rcases h with ⟨s, hs, _⟩; cases hs
  | cons s rest ih =>
    intro acc h
    by_cases hg : acc.any (holdRowOn sk s) = true
    · exact ⟨s, List.mem_cons_self _ _, by simp [insertHolds, hg]⟩
    · rcases h with ⟨s0, hs0mem, hs0⟩
      have hs0rest : s0 ∈ rest := by
        rcases List.mem_cons.mp hs0mem with h | h
        · subst h; exact absurd hs0 hg
        · exact h
      have hmono : (acc ++ [Hold.mk tk sk s exp]).any (holdRowOn sk s0) = true := by
        simp only [List.any_append]
        simp [hs0]
      rcases ih (acc ++ [Hold.mk tk sk s exp]) ⟨s0, hs0rest, hmono⟩ with ⟨s', hs'rest, hs'⟩
      refine ⟨s', List.mem_cons_of_mem _ hs'rest, ?_⟩
      simp only [insertHolds]
      simp [hg, hs']

lemma insertHolds_error_of_dup (tk : String) (sk : ShowKey) (exp : Int) :
    ∀ (l : List String) (acc : List Hold), ¬ l.Nodup →
      ∃ s', insertHolds tk sk exp acc l = .error s' := by
  intro l
  induction l with
  | nil => intro acc h; exact absurd List.nodup_nil h
  | cons s rest ih =>
    intro acc h
    by_cases hg : acc.any (holdRowOn sk s) = true
    · exact ⟨s, by simp [insertHolds, hg]⟩
    · rw [List.nodup_cons] at h
      push_neg at h
      by_cases hmem : s ∈ rest
      · have hrow : (acc ++ [Hold.mk tk sk s exp]).any (holdRowOn sk s) = true := by
          simp [List.any_append, holdRowOn]
        rcases insertHolds_error_of_mem tk sk exp rest (acc ++ [Hold.mk tk sk s exp])
          ⟨s, hmem, hrow⟩ with ⟨s', _, hs'⟩
        exact ⟨s', by simp [insertHolds, hg, hs']⟩
      · have hrest : ¬ rest.Nodup := h hmem
        rcases ih (acc ++ [Hold.mk tk sk s exp]) hrest with ⟨s', hs'⟩
        exact ⟨s', by simp [insertHolds, hg, hs']⟩

/-! ### Lemmas about the reservation insert loop -/

lemma insertReservas_ok_append (owner : Option String) (trx : Option Int) (sk : ShowKey) (now : Int) :
    ∀ (l : List String) (acc acc' : List Reserva),
      insertReservas owner trx sk now acc l = .ok acc' →
      acc' = acc ++ l.map (fun s => Reserva.mk owner trx sk s now) := by
  intro l
  induction l with
  | nil =>
    intro acc acc' h
    simp only [insertReservas] at h
    cases h
    simp
  | cons s rest ih =>
    intro acc acc' h
    simp only [insertReservas] at h
    split at h
    · exact absurd h (by simp)
    · have h2 := ih _ _ h
      simp [h2]

lemma insertReservas_ok_nodup (owner : Option String) (trx : Option Int) (sk : ShowKey) (now : Int) :
    ∀ (l : List String) (acc acc' : List Reserva),
      insertReservas owner trx sk now acc l = .ok acc' →
      (acc.map Reserva.key).Nodup → (acc'.map Reserva.key).Nodup := by
  intro l
  induction l with
  | nil =>
    intro acc acc' h hn
    simp only [insertReservas] at h
    cases h; exact hn
  | cons s rest ih =>
    intro acc acc' h hn
    simp only [insertReservas] at h
    split at h
    · exact absurd h (by simp)
    · rename_i hguard
      refine ih _ _ h ?_
      have hnot : (sk, s) ∉ acc.map Reserva.key := by
        intro hmem
        rcases List.mem_map.mp hmem with ⟨r0, r0mem, r0key⟩
        have : acc.any (reservaOn sk s) = true := by
          refine List.any_eq_true.mpr ⟨r0, r0mem, ?_⟩
          refine reservaOn_iff.mpr ?_
          exact ⟨congrArg Prod.fst r0key, congrArg Prod.snd r0key⟩
        simp [this] at hguard
      simp only [List.map_append, List.map_cons, List.map_nil]
      refine List.nodup_append.mpr ⟨hn, List.nodup_singleton _, ?_⟩
      intro a ha hb
      simp only [List.mem_singleton] at hb
      subst hb
      exact hnot ha

lemma insertReservas_ok_of_fresh (owner : Option String) (trx : Option Int) (sk : ShowKey) (now : Int) :
    ∀ (l : List String) (acc : List Reserva),
      l.Nodup → (∀ s ∈ l, acc.any (reservaOn sk s) = false) →
      insertReservas owner trx sk now acc l =
        .ok (acc ++ l.map (fun s => Reserva.mk owner trx sk s now)) := by
  intro l
  induction l with
  | nil => intro acc _ _; simp [insertReservas]
  | cons s rest ih =>
    intro acc hnd hfresh
    have hs := hfresh s (List.mem_cons_self _ _)
    rw [List.nodup_cons] at hnd
    have hrest : ∀ x ∈ rest, (acc ++ [Reserva.mk owner trx sk s now]).any (reservaOn sk x) = false := by
      intro x hx
      simp only [List.any_append, Bool.or_eq_false_iff]
      refine ⟨hfresh x (List.mem_cons_of_mem _ hx), ?_⟩
      have hxs : x ≠ s := fun hcontra => hnd.1 (hcontra ▸ hx)
      simp [reservaOn, hxs.symm]
    have := ih (acc ++ [Reserva.mk owner trx sk s now]) hnd.2 hrest
    simp only [insertReservas, hs]
    simp only [Bool.false_eq_true, if_false, this]
    simp

lemma insertReservas_error_first (owner : Option String) (trx : Option Int) (sk : ShowKey) (now : Int) :
    ∀ (l : List String) (acc : List Reserva) (s : String),
      l.Nodup →
      l.find? (fun x => acc.any (reservaOn sk x)) = some s →
      insertReservas owner trx sk now acc l = .error s := by
  intro l
  induction l with
  | nil => intro acc s _ h; cases h
  | cons a rest ih =>
    intro acc s hnd hfind
    rw [List.nodup_cons] at hnd
    by_cases hg : acc.any (reservaOn sk a) = true
    · have : s = a := by
        simp only [List.find?, hg] at hfind
        cases hfind; rfl
      subst this
      simp [insertReservas, hg]
    · have hg' : acc.any (reservaOn sk a) = false := by
        cases h : acc.any (reservaOn sk a)
        · rfl
        · exact absurd h hg
      have hfind' : rest.find? (fun x => acc.any (reservaOn sk x)) = some s := by
        simp only [List.find?, hg'] at hfind
        exact hfind
      have hagree : ∀ x ∈ rest,
          ((acc ++ [Reserva.mk owner trx sk a now]).any (reservaOn sk x)) =
            (acc.any (reservaOn sk x)) := by
        intro x hx
        have hxa : x ≠ a := fun hcontra => hnd.1 (hcontra ▸ hx)
        simp [List.any_append, reservaOn, hxa.symm]
      have hfind2 : rest.find? (fun x => (acc ++ [Reserva.mk owner trx sk a now]).any (reservaOn sk x)) = some s := by
        rw [find?_agree hagree]
        exact hfind'
      have := ih (acc ++ [Reserva.mk owner trx sk a now]) s hnd.2 hfind2
      simp [insertReservas, hg', this]

/-! ### Preservation of the ledger invariant -/

lemma filter_holds_inv (σ : Ledger) (p : Hold → Bool) (h : LedgerInv σ) :
    LedgerInv ⟨σ.holds.filter p, σ.reservas⟩ := by
  obtain ⟨h1, h2, h3⟩ := h
  refine ⟨?_, h2, ?_⟩
  · exact h1.sublist ((σ.holds.filter_sublist).map Hold.key)
  · intro hh hhmem r rmem
    exact h3 hh (List.mem_of_mem_filter hhmem) r rmem

lemma hold_seats_ok_reservas (tk : String) (sk : ShowKey) (seats : List String)
    (ttl now : Int) (σ σ' : Ledger) (h : hold_seats tk sk seats ttl now σ = .ok σ') :
    σ'.reservas = σ.reservas := by
  simp only [hold_seats] at h
  split at h
  · cases h; rfl
  · split at h
    · exact absurd h (by simp)
    · split at h
      · exact absurd h (by simp)
      · cases h; rfl

lemma applyHold_reservas (tk : String) (sk : ShowKey) (seats : List String)
    (ttl now : Int) (σ : Ledger) :
    (applyHold tk sk seats ttl now σ).2.reservas = σ.reservas := by
  unfold applyHold
  cases heq : hold_seats tk sk seats ttl now σ with
  | ok σ' => exact hold_seats_ok_reservas tk sk seats ttl now σ σ' heq
  | error e => rfl

lemma hold_preserves_inv (tk : String) (sk : ShowKey) (seats : List String)
    (ttl now : Int) (σ : Ledger) (hinv : LedgerInv σ) :
    LedgerInv (applyHold tk sk seats ttl now σ).2 := by
  unfold applyHold
  cases heq : hold_seats tk sk seats ttl now σ with
  | error e => exact hinv
  | ok σ' =>
    simp only []
    simp only [hold_seats] at heq
    split at heq
    · cases heq; exact filter_holds_inv σ _ hinv
    · split at heq
      · exact absurd heq (by simp)
      · rename_i hconf
        split at heq
        · exact absurd heq (by simp)
        · rename_i holds2 hins
          cases heq
          have hsub : ((σ.holds.filter fun h => !holdOwnedBy tk sk h).map Hold.key).Nodup :=
            hinv.1.sublist ((σ.holds.filter_sublist).map Hold.key)
          have happ := insertHolds_ok_append tk sk (now + ttl) (cleanSeats seats) _ _ hins
          have hnodup := insertHolds_ok_nodup tk sk (now + ttl) (cleanSeats seats) _ _ hins hsub
          refine ⟨hnodup, hinv.2.1, ?_⟩
          intro hh hhmem r rmem
          rw [happ, List.mem_append] at hhmem
          rcases hhmem with hold | hnew
          · exact hinv.2.2 hh (List.mem_of_mem_filter hold) r rmem
          · rcases List.mem_map.mp hnew with ⟨s, hsmem, hrow⟩
            subst hrow
            intro hkey
            have hrsk : r.show_key = sk := (congrArg Prod.fst hkey).symm
            have hrseat : r.seat = s := (congrArg Prod.snd hkey).symm
            have hnil : (σ.reservas.filter fun r =>
                decide (r.show_key = sk ∧ r.seat ∈ cleanSeats seats)) = [] := by
              have := not_not.mp hconf
              exact List.map_eq_nil_iff.mp (by exact this)
            have := List.filter_eq_nil_iff.mp hnil r rmem
            simp only [decide_eq_true_eq] at this
            exact this ⟨hrsk, hrseat ▸ hsmem⟩

lemma confirm_preserves_inv (tk : String) (sk : ShowKey) (owner : Option String)
    (trx : Option Int) (now : Int) (σ : Ledger) (hinv : LedgerInv σ) :
    LedgerInv (applyConfirm tk sk owner trx now σ).2.2 := by
  unfold applyConfirm
  cases heq : confirm_seats tk sk owner trx now σ with
  | error e => exact hinv
  | ok p =>
    obtain ⟨l, σ'⟩ := p
    simp only []
    simp only [confirm_seats] at heq
    split at heq
    · cases heq; exact hinv
    · split at heq
      · exact absurd heq (by simp)
      · rename_i rs2 hins
        cases heq
        have happ := insertReservas_ok_append owner trx sk now (heldSeats tk sk now σ) _ _ hins
        have hnodup := insertReservas_ok_nodup owner trx sk now (heldSeats tk sk now σ) _ _ hins hinv.2.1
        refine ⟨?_, hnodup, ?_⟩
        · exact hinv.1.sublist ((σ.holds.filter_sublist).map Hold.key)
        · intro hh hhmem r rmem
          have hhσ : hh ∈ σ.holds := List.mem_of_mem_filter hhmem
          have hhnotowned : ¬ (hh.token = tk ∧ hh.show_key = sk) := by
            have hfalse := (List.mem_filter.mp hhmem).2
            simp only [Bool.not_eq_true'] at hfalse
            intro hcontra
            have htrue : holdOwnedBy tk sk hh = true := holdOwnedBy_iff.mpr hcontra
            rw [hfalse] at htrue
            cases htrue
          rw [happ, List.mem_append] at rmem
          rcases rmem with rold | rnew
          · exact hinv.2.2 hh hhσ r rold
          · rcases List.mem_map.mp rnew with ⟨s, hsmem, hrow⟩
            subst hrow
            intro hkey
            have hhsk : hh.show_key = sk := congrArg Prod.fst hkey
            have hhseat : hh.seat = s := congrArg Prod.snd hkey
            rcases List.mem_map.mp hsmem with ⟨h0, h0mem, h0seat⟩
            have h0live := (List.mem_filter.mp h0mem).2
            simp only [liveHoldOf, decide_eq_true_eq] at h0live
            have h0σ : h0 ∈ σ.holds := List.mem_of_mem_filter h0mem
            have hkeyeq : Hold.key hh = Hold.key h0 := by
              simp [Hold.key, hhsk, hhseat, h0live.2.1, h0seat]
            have heqh : hh = h0 := List.inj_on_of_nodup_map hinv.1 hhσ h0σ hkeyeq
            exact hhnotowned ⟨heqh ▸ h0live.1, hhsk⟩

lemma step_preserves_inv {σ σ' : Ledger} (hstep : StepR σ σ') (hinv : LedgerInv σ) :
    LedgerInv σ' := by
  cases hstep with
  | hold tk sk seats ttl now σ => exact hold_preserves_inv tk sk seats ttl now σ hinv
  | release tk sk σ => exact filter_holds_inv σ _ hinv
  | confirm tk sk owner trx now σ => exact confirm_preserves_inv tk sk owner trx now σ hinv
  | purge now σ => exact filter_holds_inv σ _ hinv

lemma inv_empty : LedgerInv Ledger.empty := by
  refine ⟨List.nodup_nil, List.nodup_nil, ?_⟩
  intro h hmem
  cases hmem

lemma reachable_inv {σ : Ledger} (h : Reachable σ) : LedgerInv σ := by
  induction h with
  | init => exact inv_empty
  | step _ hstep ih => exact step_preserves_inv hstep ih

/-! ### Concrete fixtures used by witnesses and counterexamples -/

/-- A sample show. -/
def skA : ShowKey := ⟨"M1", "2026-01-01", "20:00", "S1"⟩

/-- A second, distinct show. -/
def skB : ShowKey := ⟨"M2", "2026-01-02", "18:30", "S2"⟩

/-- Ledger holding one expired hold row of token "B" on seat B5
(the sweeper has not run yet). -/
def staleLedger : Ledger := ⟨[⟨"B", skA, "B5", 10⟩], []⟩

/-- Ledger where token "B" holds B5 and B6, both live at time 100. -/
def twoHoldLedger : Ledger := ⟨[⟨"B", skA, "B5", 1000⟩, ⟨"B", skA, "B6", 1000⟩], []⟩

/-- Ledger where token "A" holds B5, live at time 100. -/
def oneHoldLedger : Ledger := ⟨[⟨"A", skA, "B5", 700⟩], []⟩

/-- Ledger with a hold whose token is the empty string and whose expiry is
exactly the observation instant. -/
def emptyTokenLedger : Ledger := ⟨[⟨"", skA, "B5", 100⟩], []⟩

/-- Ledger with a hold expiring exactly at time 100. -/
def expiresNowLedger : Ledger := ⟨[⟨"A", skA, "C1", 100⟩], []⟩

/-- Ledger where token "A" live-holds B5 while B5 is already reserved. -/
def heldReservedLedger : Ledger :=
  ⟨[⟨"A", skA, "B5", 700⟩], [⟨some "o@e.c", some 1, skA, "B5", 50⟩]⟩

/-- A reachable one-hold ledger: the result of a successful place_hold. -/
def reachedLedger : Ledger := (applyHold "A" skA ["B5"] 600 0 Ledger.empty).2

/-! ### C1 -/

/-- C1: the code violates the claim at its highlighted input.  With only an
expired hold row of another token on seat B5, the seat is not occupied for
token "A" (occupancy filters by expires_at), yet `hold_seats` raises
"Asiento ocupado: B5" — the unique index `ux_seat_holds_show_seat` ignores
expiry — and the transaction rolls back instead of succeeding. -/
theorem hold_blocked_by_stale_expired_hold :
    "B5" ∉ get_occupied_seats skA (some "A") 100 staleLedger ∧
    applyHold "A" skA ["B5"] 600 100 staleLedger =
      (some (.seatTaken "B5"), staleLedger) := by
  decide

/-! ### C6 -/

/-- C6: a `confirm` call finding no non-expired hold of the token for the
show returns the empty list without error and leaves the ledger unchanged,
so a second invocation right after a successful confirm cannot create a
duplicate reservation. -/
theorem confirm_no_live_hold_returns_empty (tk : String) (sk : ShowKey)
    (owner : Option String) (trx : Option Int) (now : Int) (σ : Ledger)
    (h : heldSeats tk sk now σ = []) :
    confirm_seats tk sk owner trx now σ = .ok ([], σ) := by
  simp [confirm_seats, h]

/-- Witness for C6 at a concrete ledger whose only hold of the token has
expired. -/
theorem confirm_no_live_hold_returns_empty_app :
    confirm_seats "B" skA (some "x") (some 1) 100 staleLedger = .ok ([], staleLedger) :=
  confirm_no_live_hold_returns_empty "B" skA (some "x") (some 1) 100 staleLedger (by decide)

/-! ### C8 -/

lemma length_filter_add_length_filter_not {α : Type} (p : α → Bool) (l : List α) :
    (l.filter p).length + (l.filter fun a => !p a).length = l.length := by
  induction l with
  | nil => rfl
  | cons a t ih =>
    by_cases h : p a = true <;>
      simp [List.filter_cons, h, Nat.add_right_comm, ih] <;> omega

/-- C8 counterexample: a hold with expires_at = now (≤ now, so removed per
the claim) survives `purge_expired_holds`, which deletes strictly past
expiries only (`expires_at < now`). -/
theorem purge_boundary_counterexample :
    (∀ h ∈ expiresNowLedger.holds, h.expires_at ≤ 100) ∧
    purge_expired_holds 100 expiresNowLedger = (0, expiresNowLedger) := by
  decide

/-- C8 (amended): `purge_expired_holds` deletes exactly the hold rows with
expires_at < now — keeping every row with now ≤ expires_at — returns the
number of rows removed, never touches reservations, and is idempotent. -/
theorem purge_expired_spec (now : Int) (σ : Ledger) :
    (∀ h : Hold, h ∈ (purge_expired_holds now σ).2.holds ↔ h ∈ σ.holds ∧ now ≤ h.expires_at) ∧
    (purge_expired_holds now σ).1 + (purge_expired_holds now σ).2.holds.length = σ.holds.length ∧
    (purge_expired_holds now σ).2.reservas = σ.reservas ∧
    purge_expired_holds now (purge_expired_holds now σ).2 = (0, (purge_expired_holds now σ).2) := by
  refine ⟨?_, ?_, rfl, ?_⟩
  · intro h
    simp [purge_expired_holds, List.mem_filter, Int.not_lt]
  · exact length_filter_add_length_filter_not _ _
  · have h1 : (fun (a : Hold) => decide (a.expires_at < now) && !decide (a.expires_at < now)) =
        fun _ => false := by
      funext a
      cases h : decide (a.expires_at < now) <;> simp [h]
    have h2 : (fun (a : Hold) => !decide (a.expires_at < now) && !decide (a.expires_at < now)) =
        fun a => !decide (a.expires_at < now) := by
      funext a
      exact Bool.and_self _
    simp only [purge_expired_holds, List.filter_filter, h1, h2, List.filter_false,
      List.length_nil]

/-! ### C9 -/

/-- C9 counterexample: `hold_seats` with a blank-only seat list is not
rejected; it succeeds and the token's prior hold row for the show is deleted
(storage was touched, no EmptySelectionError). -/
theorem empty_selection_counterexample :
    hold_seats "A" skA ["   "] 600 100 oneHoldLedger = .ok ⟨[], []⟩ ∧
    oneHoldLedger.holds ≠ [] := by
  exact ⟨rfl, by decide⟩

/-- C9 (amended): a call whose cleaned seat list is empty (no seats, or only
blank strings) is not an error at the db layer: `hold_seats` deletes the
token's prior hold rows for the show and returns successfully, inserting
nothing; the empty-selection rejection lives in the route layer. -/
theorem empty_selection_releases (tk : String) (sk : ShowKey) (seats : List String)
    (ttl now : Int) (σ : Ledger) (h : cleanSeats seats = []) :
    hold_seats tk sk seats ttl now σ =
      .ok ⟨σ.holds.filter fun hh => !holdOwnedBy tk sk hh, σ.reservas⟩ := by
  simp [hold_seats, h]

/-- Witness for C9 (amended) at a blank-and-empty input. -/
theorem empty_selection_releases_app :
    hold_seats "A" skA [" ", ""] 600 100 oneHoldLedger =
      .ok ⟨oneHoldLedger.holds.filter fun hh => !holdOwnedBy "A" skA hh,
           oneHoldLedger.reservas⟩ :=
  empty_selection_releases "A" skA [" ", ""] 600 100 oneHoldLedger (by decide)

/-! ### C3 -/

/-- C3: in every ledger reachable from the empty database by the core
operations, each (show, seat) pair observed at any time t is in exactly one
of the states Free, Held, Reserved; in particular it never carries a
non-expired hold and a reservation simultaneously. -/
theorem seat_state_exclusive (σ : Ledger) (hσ : Reachable σ) (sk : ShowKey)
    (s : String) (t : Int) :
    (FreeAt σ sk s t ∨ HeldAt σ sk s t ∨ ReservedAt σ sk s) ∧
    ¬ (HeldAt σ sk s t ∧ ReservedAt σ sk s) ∧
    ¬ (FreeAt σ sk s t ∧ HeldAt σ sk s t) ∧
    ¬ (FreeAt σ sk s t ∧ ReservedAt σ sk s) := by
  have hinv := reachable_inv hσ
  refine ⟨?_, ?_, ?_, ?_⟩
  · by_cases hH : HeldAt σ sk s t
    · exact Or.inr (Or.inl hH)
    · by_cases hR : ReservedAt σ sk s
      · exact Or.inr (Or.inr hR)
      · exact Or.inl ⟨hH, hR⟩
  · rintro ⟨⟨h, hmem, hsk, hseat, _⟩, ⟨r, rmem, rsk, rseat⟩⟩
    exact hinv.2.2 h hmem r rmem (by simp [Hold.key, Reserva.key, hsk, hseat, rsk, rseat])
  · rintro ⟨⟨hf, _⟩, hH⟩
    exact hf hH
  · rintro ⟨⟨_, hf⟩, hR⟩
    exact hf hR

/-- Witness for C3 at the reachable ledger obtained by one successful
place_hold from the empty database. -/
theorem seat_state_exclusive_app :
    ¬ (HeldAt reachedLedger skA "B5" 0 ∧ ReservedAt reachedLedger skA "B5") :=
  (seat_state_exclusive reachedLedger
    (Reachable.step Reachable.init (StepR.hold "A" skA ["B5"] 600 0 Ledger.empty))
    skA "B5" 0).2.1

/-! ### C7 -/

lemma mem_occupied_iff (sk : ShowKey) (excl : Option String) (now : Int)
    (σ : Ledger) (s : String) :
    s ∈ get_occupied_seats sk excl now σ ↔
      (∃ r ∈ σ.reservas, r.show_key = sk ∧ r.seat = s) ∨
      (∃ h ∈ σ.holds, h.show_key = sk ∧ h.seat = s ∧ now ≤ h.expires_at ∧
        ∀ t, excl = some t → t ≠ "" → h.token ≠ t) := by
  rcases excl with _ | t
  · simp only [get_occupied_seats, Finset.mem_union, List.mem_toFinset, List.mem_map,
      List.mem_filter, decide_eq_true_eq]
    constructor
    · rintro (⟨r, ⟨hr, hrsk⟩, hrs⟩ | ⟨h, ⟨hh, hhsk, hhe⟩, hhs⟩)
      · exact Or.inl ⟨r, hr, hrsk, hrs⟩
      · exact Or.inr ⟨h, hh, hhsk, hhs, hhe, fun t ht => by cases ht⟩
    · rintro (⟨r, hr, hrsk, hrs⟩ | ⟨h, hh, hhsk, hhs, hhe, _⟩)
      · exact Or.inl ⟨r, ⟨hr, hrsk⟩, hrs⟩
      · exact Or.inr ⟨h, ⟨hh, hhsk, hhe⟩, hhs⟩
  · by_cases ht : t = ""
    · subst ht
      simp only [get_occupied_seats, ne_eq, not_true_eq_false, if_false, Finset.mem_union,
        List.mem_toFinset, List.mem_map, List.mem_filter, decide_eq_true_eq]
      constructor
      · rintro (⟨r, ⟨hr, hrsk⟩, hrs⟩ | ⟨h, ⟨hh, hhsk, hhe⟩, hhs⟩)
        · exact Or.inl ⟨r, hr, hrsk, hrs⟩
        · refine Or.inr ⟨h, hh, hhsk, hhs, hhe, fun t0 ht0 hne => ?_⟩
          cases ht0
          exact absurd rfl hne
      · rintro (⟨r, hr, hrsk, hrs⟩ | ⟨h, hh, hhsk, hhs, hhe, _⟩)
        · exact Or.inl ⟨r, ⟨hr, hrsk⟩, hrs⟩
        · exact Or.inr ⟨h, ⟨hh, hhsk, hhe⟩, hhs⟩
    · simp only [get_occupied_seats, ne_eq, ht, not_false_eq_true, if_true, Finset.mem_union,
        List.mem_toFinset, List.mem_map, List.mem_filter, decide_eq_true_eq]
      constructor
      · rintro (⟨r, ⟨hr, hrsk⟩, hrs⟩ | ⟨h, ⟨hh, hhsk, hhe, hhtok⟩, hhs⟩)
        · exact Or.inl ⟨r, hr, hrsk, hrs⟩
        · refine Or.inr ⟨h, hh, hhsk, hhs, hhe, fun t0 ht0 _ => ?_⟩
          cases ht0
          exact hhtok
      · rintro (⟨r, hr, hrsk, hrs⟩ | ⟨h, hh, hhsk, hhs, hhe, htok⟩)
        · exact Or.inl ⟨r, ⟨hr, hrsk⟩, hrs⟩
        · exact Or.inr ⟨h, ⟨hh, hhsk, hhe, htok t rfl ht⟩, hhs⟩

/-- C7 counterexample: at a ledger whose sole row is a hold with token ""
and expires_at equal to the query instant, querying with exclude_token = ""
returns the seat, although it is not reserved and no hold on it both expires
strictly in the future and belongs to a token different from the excluded
one — refuting the claimed "future expiry, different token" description. -/
theorem occupied_claim_counterexample :
    "B5" ∈ get_occupied_seats skA (some "") 100 emptyTokenLedger ∧
    emptyTokenLedger.reservas = [] ∧
    (∀ h ∈ emptyTokenLedger.holds, ¬ (100 < h.expires_at ∧ h.token ≠ "")) := by
  decide

/-- C7 (amended): `get_occupied_seats` returns exactly the union of the
show's reservation seats and the seats of holds with now ≤ expires_at whose
token differs from exclude_token whenever a non-empty exclude_token is
supplied (a None or empty exclude_token excludes nothing); a show with no
rows yields the empty set, and the query reads the ledger without writing. -/
theorem occupied_spec :
    (∀ (sk : ShowKey) (excl : Option String) (now : Int) (σ : Ledger) (s : String),
      s ∈ get_occupied_seats sk excl now σ ↔
        (∃ r ∈ σ.reservas, r.show_key = sk ∧ r.seat = s) ∨
        (∃ h ∈ σ.holds, h.show_key = sk ∧ h.seat = s ∧ now ≤ h.expires_at ∧
          ∀ t, excl = some t → t ≠ "" → h.token ≠ t)) ∧
    (∀ (sk : ShowKey) (excl : Option String) (now : Int) (σ : Ledger),
      (∀ r ∈ σ.reservas, r.show_key ≠ sk) → (∀ h ∈ σ.holds, h.show_key ≠ sk) →
      get_occupied_seats sk excl now σ = ∅) := by
  refine ⟨mem_occupied_iff, ?_⟩
  intro sk excl now σ hres hholds
  refine Finset.eq_empty_iff_forall_not_mem.mpr fun s hs => ?_
  rcases (mem_occupied_iff sk excl now σ s).mp hs with ⟨r, hr, hrsk, _⟩ | ⟨h, hh, hhsk, _⟩
  · exact hres r hr hrsk
  · exact hholds h hh hhsk

/-- Witness for C7 (amended): a show with no activity has empty occupancy. -/
theorem occupied_spec_app : get_occupied_seats skB none 0 oneHoldLedger = ∅ :=
  occupied_spec.2 skB none 0 oneHoldLedger (by decide) (by decide)

/-! ### C2 -/

lemma applyHold_of_error {tk : String} {sk : ShowKey} {seats : List String}
    {ttl now : Int} {σ : Ledger} {e : HoldError}
    (h : hold_seats tk sk seats ttl now σ = .error e) :
    applyHold tk sk seats ttl now σ = (some e, σ) := by
  simp [applyHold, h]

/-- C2 counterexample: with both requested seats B5 and B6 live-held by
another token, the call aborts naming only B5 (the first insert that hit the
unique index), although B6 is also a requested seat in the occupied set —
the error does not list the full conflicting set. -/
theorem hold_conflict_counterexample :
    applyHold "A" skA ["B5", "B6"] 600 100 twoHoldLedger =
      (some (.seatTaken "B5"), twoHoldLedger) ∧
    "B6" ∈ get_occupied_seats skA (some "A") 100 twoHoldLedger ∧
    "B6" ∈ cleanSeats ["B5", "B6"] := by
  decide

/-- C2 (amended): if some cleaned requested seat is reserved or live-held by
another token, the call aborts and the transaction rolls back, leaving the
ledger (including the token's prior hold) unchanged; when reservation
conflicts exist the error lists exactly the reserved requested seats, while
a collision with another token's hold row surfaces from the unique index and
names a single requested seat. -/
theorem hold_conflict_aborts (tk : String) (sk : ShowKey) (seats : List String)
    (ttl now : Int) (σ : Ledger)
    (hconf : ∃ s ∈ cleanSeats seats,
      (∃ r ∈ σ.reservas, r.show_key = sk ∧ r.seat = s) ∨
      (∃ h ∈ σ.holds, h.show_key = sk ∧ h.seat = s ∧ now ≤ h.expires_at ∧ h.token ≠ tk)) :
    ∃ e, applyHold tk sk seats ttl now σ = (some e, σ) ∧
      ((∃ l, e = .reservedConflict l ∧ l ≠ [] ∧
          ∀ x, x ∈ l ↔ ∃ r ∈ σ.reservas, r.show_key = sk ∧ r.seat = x ∧ x ∈ cleanSeats seats) ∨
       (∃ s, e = .seatTaken s ∧ s ∈ cleanSeats seats)) := by
  obtain ⟨s0, hs0clean, hs0⟩ := hconf
  have hcleanne : cleanSeats seats ≠ [] := by
    intro hc
    rw [hc] at hs0clean
    cases hs0clean
  by_cases hc : ((σ.reservas.filter fun r =>
      decide (r.show_key = sk ∧ r.seat ∈ cleanSeats seats)).map Reserva.seat) = []
  · have hresnone : ∀ r ∈ σ.reservas, ¬ (r.show_key = sk ∧ r.seat ∈ cleanSeats seats) := by
      intro r hr
      have := List.filter_eq_nil_iff.mp (List.map_eq_nil_iff.mp hc) r hr
      simpa using this
    rcases hs0 with ⟨r, hrmem, hrsk, hrseat⟩ | ⟨h0, h0mem, h0sk, h0seat, h0live, h0tok⟩
    · exact absurd ⟨hrsk, hrseat ▸ hs0clean⟩ (hresnone r hrmem)
    · have h0in1 : h0 ∈ σ.holds.filter (fun h => !holdOwnedBy tk sk h) := by
        refine List.mem_filter.mpr ⟨h0mem, ?_⟩
        simp only [holdOwnedBy, Bool.not_eq_true', decide_eq_false_iff_not]
        rintro ⟨hta, _⟩
        exact h0tok hta
      have hany : (σ.holds.filter fun h => !holdOwnedBy tk sk h).any (holdRowOn sk s0) = true :=
        any_holdRowOn_iff.mpr ⟨h0, h0in1, h0sk, h0seat⟩
      rcases insertHolds_error_of_mem tk sk (now + ttl) (cleanSeats seats) _
        ⟨s0, hs0clean, hany⟩ with ⟨s', hs'mem, hs'⟩
      have herr : hold_seats tk sk seats ttl now σ = .error (.seatTaken s') := by
        simp only [hold_seats]
        rw [if_neg hcleanne, if_neg (not_not_intro hc), hs']
      exact ⟨.seatTaken s', applyHold_of_error herr, Or.inr ⟨s', rfl, hs'mem⟩⟩
  · have herr : hold_seats tk sk seats ttl now σ =
        .error (.reservedConflict ((σ.reservas.filter fun r =>
          decide (r.show_key = sk ∧ r.seat ∈ cleanSeats seats)).map Reserva.seat)) := by
      simp only [hold_seats]
      rw [if_neg hcleanne, if_pos hc]
    refine ⟨_, applyHold_of_error herr, Or.inl ⟨_, rfl, hc, ?_⟩⟩
    intro x
    simp only [List.mem_map, List.mem_filter, decide_eq_true_eq]
    constructor
    · rintro ⟨r, ⟨hr, hrsk, hrmem⟩, hrx⟩
      exact ⟨r, hr, hrsk, hrx, hrx ▸ hrmem⟩
    · rintro ⟨r, hr, hrsk, hrx, hxmem⟩
      exact ⟨r, ⟨hr, hrsk, hrx ▸ hxmem⟩, hrx⟩

/-- Witness for C2 (amended) at two live holds of another token. -/
theorem hold_conflict_aborts_app :
    ∃ e, applyHold "A" skA ["B5", "B6"] 600 100 twoHoldLedger = (some e, twoHoldLedger) ∧
      ((∃ l, e = .reservedConflict l ∧ l ≠ [] ∧
          ∀ x, x ∈ l ↔ ∃ r ∈ twoHoldLedger.reservas, r.show_key = skA ∧ r.seat = x ∧
            x ∈ cleanSeats ["B5", "B6"]) ∨
       (∃ s, e = .seatTaken s ∧ s ∈ cleanSeats ["B5", "B6"])) :=
  hold_conflict_aborts "A" skA ["B5", "B6"] 600 100 twoHoldLedger (by decide)

/-! ### C4 and C5 -/

lemma heldSeats_nodup (tk : String) (sk : ShowKey) (now : Int) (σ : Ledger)
    (hk : holdsKeyNodup σ) : (heldSeats tk sk now σ).Nodup := by
  have hsub : ((σ.holds.filter (liveHoldOf tk sk now)).map Hold.key).Nodup :=
    hk.sublist ((σ.holds.filter_sublist).map Hold.key)
  have hmapeq : (σ.holds.filter (liveHoldOf tk sk now)).map Hold.key =
      ((σ.holds.filter (liveHoldOf tk sk now)).map Hold.seat).map (Prod.mk sk) := by
    rw [List.map_map]
    refine List.map_congr_left ?_
    intro x hx
    have hlive := (List.mem_filter.mp hx).2
    simp only [liveHoldOf, decide_eq_true_eq] at hlive
    simp [Hold.key, hlive.2.1]
  rw [hmapeq] at hsub
  exact List.Nodup.of_map _ hsub

/-- C4: when the token has at least one non-expired hold for the show and no
held seat is already reserved, `confirm_seats` returns exactly the held
seats, appends one reservation row per held seat carrying the owner identity
and the payment reference, and deletes the token's hold rows for the show;
moreover no core operation ever removes or modifies existing reservation
rows. -/
theorem confirm_success_spec :
    (∀ (tk : String) (sk : ShowKey) (owner : Option String) (trx : Option Int)
        (now : Int) (σ : Ledger),
      holdsKeyNodup σ →
      heldSeats tk sk now σ ≠ [] →
      (∀ s ∈ heldSeats tk sk now σ, ¬ ReservedAt σ sk s) →
      confirm_seats tk sk owner trx now σ =
        .ok (heldSeats tk sk now σ,
          ⟨σ.holds.filter fun h => !holdOwnedBy tk sk h,
           σ.reservas ++ (heldSeats tk sk now σ).map fun s => Reserva.mk owner trx sk s now⟩)) ∧
    (∀ σ σ' : Ledger, StepR σ σ' → σ.reservas.Sublist σ'.reservas) := by
  constructor
  · intro tk sk owner trx now σ hk hne hfresh
    have hnodup := heldSeats_nodup tk sk now σ hk
    have hfreshB : ∀ s ∈ heldSeats tk sk now σ, σ.reservas.any (reservaOn sk s) = false := by
      intro s hs
      cases hany : σ.reservas.any (reservaOn sk s)
      · rfl
      · rcases any_reservaOn_iff.mp hany with ⟨r, hr, h1, h2⟩
        exact absurd ⟨r, hr, h1, h2⟩ (hfresh s hs)
    have hins := insertReservas_ok_of_fresh owner trx sk now (heldSeats tk sk now σ)
      σ.reservas hnodup hfreshB
    simp only [confirm_seats]
    rw [if_neg hne, hins]
  · intro σ σ' hstep
    cases hstep with
    | hold tk sk seats ttl now σ =>
      rw [applyHold_reservas]
    | release tk sk σ =>
      exact List.Sublist.refl _
    | purge now σ =>
      exact List.Sublist.refl _
    | confirm tk sk owner trx now σ =>
      unfold applyConfirm
      cases heq : confirm_seats tk sk owner trx now σ with
      | error e => exact List.Sublist.refl _
      | ok p =>
        obtain ⟨l, σ2⟩ := p
        simp only []
        simp only [confirm_seats] at heq
        split at heq
        · cases heq
          exact List.Sublist.refl _
        · split at heq
          · exact absurd heq (by simp)
          · rename_i rs2 hins
            cases heq
            have happ := insertReservas_ok_append owner trx sk now _ _ _ hins
            rw [happ]
            exact List.sublist_append_left _ _

/-- Witness for C4 at a ledger with one live hold and no reservations. -/
theorem confirm_success_spec_app :
    confirm_seats "A" skA (some "a@b.c") (some 7) 100 oneHoldLedger =
      .ok (heldSeats "A" skA 100 oneHoldLedger,
        ⟨oneHoldLedger.holds.filter fun h => !holdOwnedBy "A" skA h,
         oneHoldLedger.reservas ++ (heldSeats "A" skA 100 oneHoldLedger).map
           fun s => Reserva.mk (some "a@b.c") (some 7) skA s 100⟩) :=
  confirm_success_spec.1 "A" skA (some "a@b.c") (some 7) 100 oneHoldLedger
    (by decide) (by decide) (by decide)

/-- C5: when some held seat is already reserved, the whole confirmation
aborts as one unit: the transaction rolls back (no reservation from the call
remains, the holds survive untouched), and the error names the failed seat —
the first held seat whose insert violated the (show, seat) uniqueness. -/
theorem confirm_conflict_rolls_back (tk : String) (sk : ShowKey) (owner : Option String)
    (trx : Option Int) (now : Int) (σ : Ledger) (s : String)
    (hk : holdsKeyNodup σ)
    (hfind : (heldSeats tk sk now σ).find? (fun x => σ.reservas.any (reservaOn sk x)) = some s) :
    applyConfirm tk sk owner trx now σ = (some (.alreadyReserved s), [], σ) ∧
    s ∈ heldSeats tk sk now σ ∧ ReservedAt σ sk s := by
  have hmem : s ∈ heldSeats tk sk now σ := List.mem_of_find?_eq_some hfind
  have hp : σ.reservas.any (reservaOn sk s) = true := by
    have hp0 := List.find?_some hfind
    simpa using hp0
  have hres : ReservedAt σ sk s := by
    rcases any_reservaOn_iff.mp hp with ⟨r, hr, h1, h2⟩
    exact ⟨r, hr, h1, h2⟩
  have hne : heldSeats tk sk now σ ≠ [] := by
    intro hcon
    rw [hcon] at hmem
    cases hmem
  have herr := insertReservas_error_first owner trx sk now (heldSeats tk sk now σ)
    σ.reservas s (heldSeats_nodup tk sk now σ hk) hfind
  have hcs : confirm_seats tk sk owner trx now σ = .error (.alreadyReserved s) := by
    simp only [confirm_seats]
    rw [if_neg hne, herr]
  exact ⟨by simp [applyConfirm, hcs], hmem, hres⟩

/-- Witness for C5 at a ledger whose single held seat is already reserved. -/
theorem confirm_conflict_rolls_back_app :
    applyConfirm "A" skA (some "x") (some 2) 100 heldReservedLedger =
      (some (.alreadyReserved "B5"), [], heldReservedLedger) ∧
    "B5" ∈ heldSeats "A" skA 100 heldReservedLedger ∧
    ReservedAt heldReservedLedger skA "B5" :=
  confirm_conflict_rolls_back "A" skA (some "x") (some 2) 100 heldReservedLedger "B5"
    (by decide) (by decide)

/-! ### C10 -/

lemma pyStrip_empty : pyStrip "" = "" := rfl

lemma pyUpper_eq_empty_iff (s : String) : pyUpper s = "" ↔ s = "" := by
  obtain ⟨l⟩ := s
  simp only [pyUpper, String.ext_iff]
  exact List.map_eq_nil_iff

/-- C10 counterexample: a duplicated seat code (after normalization) is not
inserted twice — the second insert violates `ux_seat_holds_show_seat`, so the
whole call aborts with an error and the ledger is left unchanged (here: still
empty). -/
theorem hold_duplicate_counterexample :
    applyHold "A" skA ["b5 ", "B5"] 600 100 Ledger.empty =
      (some (.seatTaken "B5"), Ledger.empty) := by
  decide

/-- C10 (amended): `hold_seats` normalizes its input itself — each entry is
stripped and uppercased and blank entries are dropped, so the ledger effect
depends only on the normalized list — and the input is not deduplicated, but
a seat code surviving twice does not produce two rows: the duplicate insert
violates the unique hold index, aborting the whole call with an error and
rolling the ledger back. -/
theorem hold_normalization_spec :
    (∀ seats : List String,
      cleanSeats seats = (seats.map fun s => pyUpper (pyStrip s)).filter fun s => s ≠ "") ∧
    (∀ (tk : String) (sk : ShowKey) (s1 s2 : List String) (ttl now : Int) (σ : Ledger),
      cleanSeats s1 = cleanSeats s2 →
      hold_seats tk sk s1 ttl now σ = hold_seats tk sk s2 ttl now σ) ∧
    (∀ (tk : String) (sk : ShowKey) (seats : List String) (ttl now : Int) (σ : Ledger),
      ¬ (cleanSeats seats).Nodup →
      (applyHold tk sk seats ttl now σ).2 = σ ∧
      (applyHold tk sk seats ttl now σ).1 ≠ none) := by
  refine ⟨?_, ?_, ?_⟩
  · intro seats
    induction seats with
    | nil => rfl
    | cons a t ih =>
      by_cases h : pyStrip a = ""
      · have hup : pyUpper (pyStrip a) = "" := (pyUpper_eq_empty_iff _).mpr h
        have hguard : ¬ (a ≠ "" ∧ pyStrip a ≠ "") := by
          rintro ⟨_, hs⟩
          exact hs h
        simp [cleanSeats, List.filterMap_cons, hguard, List.filter_cons, hup] at ih ⊢
        exact ih
      · have ha : a ≠ "" := by
          intro hz
          rw [hz] at h
          exact h pyStrip_empty
        have hup : pyUpper (pyStrip a) ≠ "" := fun hz => h ((pyUpper_eq_empty_iff _).mp hz)
        simp [cleanSeats, List.filterMap_cons, ha, h, List.filter_cons, hup] at ih ⊢
        exact ih
  · intro tk sk s1 s2 ttl now σ h
    simp only [hold_seats, h]
  · intro tk sk seats ttl now σ hnd
    have hne : cleanSeats seats ≠ [] := by
      intro hc
      rw [hc] at hnd
      exact hnd List.nodup_nil
    by_cases hc : ((σ.reservas.filter fun r =>
        decide (r.show_key = sk ∧ r.seat ∈ cleanSeats seats)).map Reserva.seat) = []
    · obtain ⟨s', hs'⟩ := insertHolds_error_of_dup tk sk (now + ttl) (cleanSeats seats)
        (σ.holds.filter fun h => !holdOwnedBy tk sk h) hnd
      have herr : hold_seats tk sk seats ttl now σ = .error (.seatTaken s') := by
        simp only [hold_seats]
        rw [if_neg hne, if_neg (not_not_intro hc), hs']
      simp [applyHold_of_error herr]
    · have herr : hold_seats tk sk seats ttl now σ =
          .error (.reservedConflict ((σ.reservas.filter fun r =>
            decide (r.show_key = sk ∧ r.seat ∈ cleanSeats seats)).map Reserva.seat)) := by
        simp only [hold_seats]
        rw [if_neg hne, if_pos hc]
      simp [applyHold_of_error herr]

/-- Witness for C10 (amended), exercising the duplicate-abort branch at a
concrete duplicated input. -/
theorem hold_normalization_spec_app :
    (applyHold "A" skA ["B5", "B5"] 600 100 Ledger.empty).2 = Ledger.empty ∧
    (applyHold "A" skA ["B5", "B5"] 600 100 Ledger.empty).1 ≠ none :=
  hold_normalization_spec.2.2 "A" skA ["B5", "B5"] 600 100 Ledger.empty (by decide)

end CinemaWeb
